import Mathlib

/-!
Shallow embedding of `learn/models/infogan.py` (class `InfoGAN`).

Tensors of shape (batch, width) are embedded as `List (List ℚ)`: a list of
example rows. Keras operations that act pointwise along the batch axis are
modelled row-wise. External collaborators stay abstract function parameters:
the distributions' `nll` and `sample`, the backend's `K.log` and
`K.epsilon()`, and the framework's `Model.train_on_batch`.
-/

/-- Tensors of shape (batch, width): a list of example rows. -/
abbrev Tensor := List (List ℚ)

/-- One distribution as the model consumes it: the ordered
`param_info()` entries, each a (parameter name, dimensionality) pair
(the activation kind plays no role in the claims), and `sample_size()`. -/
structure Distribution where
  param_info : List (String × Nat)
  sample_size : Nat
deriving DecidableEq

/-- Python truthiness of the optional `supervised_dist_name` as tested at
infogan.py:104, 125, 168, 403 and 407: `None` and the empty string are falsy. -/
def truthy : Option String → Bool
  | none => false
  | some s => s != ""

/-- The parameter-slicing loop shared verbatim by `sampling_fn`
(infogan.py:249-257) and `mutual_info_loss` (infogan.py:350-359): a cursor
walks the merged tensor, cutting out `merged[:, i:i+dim]` for each declared
parameter in order. -/
def slice_params : List (String × Nat) → Nat → Tensor → List (String × Tensor)
  | [], _, _ => []
  | (n, d) :: ps, i, merged =>
      (n, merged.map fun row => (row.drop i).take d) :: slice_params ps (i + d) merged

/-- The op `Concatenate(axis=-1)` applied to a list of batch tensors: rows are
appended position by position. The source applies it only to lists of two or
more tensors (infogan.py:259-263, 303-309) and uses a sole tensor directly,
which the singleton case mirrors. -/
def concatenate : List Tensor → Tensor
  | [] => []
  | [t] => t
  | t :: ts => List.zipWith (· ++ ·) t (concatenate ts)

/-- One prior-parameter input placeholder, named
g_prior_param_<dist>_<param> in the source (infogan.py:243-244). -/
structure Placeholder where
  dist_name : String
  param_name : String
  dim : Nat
deriving DecidableEq

/-- The loop of `_sample_latent_input` (infogan.py:242-247): one placeholder
per declared parameter, with the parallel `param_names` list. -/
def sample_latent_input (dist_name : String) (dist : Distribution) :
    List String × List Placeholder :=
  (dist.param_info.map Prod.fst,
   dist.param_info.map fun p => ⟨dist_name, p.1, p.2⟩)

/-- The closure `sampling_fn` of `_sample_latent_input` (infogan.py:249-257):
slice the merged parameter tensor back into the named parameters, in declared
order, and apply the distribution's external `sample`. -/
def sampling_fn (dist : Distribution) (sample : List (String × Tensor) → Tensor)
    (merged : Tensor) : Tensor :=
  sample (slice_params dist.param_info 0 merged)

/-- The accumulation loops of `_sample_latent_inputs` (infogan.py:221-233);
the noise-distribution loop and the meaningful-distribution loop have
identical bodies, modelled as one pass. Returns
(all_param_inputs, all_param_names, all_param_dist_names). -/
def sample_latent_inputs_aux : List (String × Distribution) →
    List Placeholder × List String × List String
  | [] => ([], [], [])
  | (name, dist) :: rest =>
      let (pn, pi) := sample_latent_input name dist
      let (ri, rn, rd) := sample_latent_inputs_aux rest
      (pi ++ ri, pn ++ rn, List.replicate pn.length name ++ rd)

/-- The method `_sample_latent_inputs` (infogan.py:216-235): noise
distributions first, then meaningful distributions. -/
def sample_latent_inputs (noise_dists meaningful_dists : List (String × Distribution)) :
    List Placeholder × List String × List String :=
  sample_latent_inputs_aux (noise_dists ++ meaningful_dists)

/-- The numeric prior-parameter bank `prior_params[dist][param]`, each entry a
(batch, dim) array (infogan.py:37, 366). -/
abbrev PriorBank := String → String → Tensor

/-- The method `_assemble_prior_params` (infogan.py:363-368): zip the recorded
dist-name and param-name lists and look each pair up in the bank. -/
def assemble_prior_params (prior_params : PriorBank)
    (prior_param_dist_names prior_param_names : List String) : List Tensor :=
  (prior_param_dist_names.zip prior_param_names).map fun dp =>
    prior_params dp.1 dp.2

/-- The external collaborator `Distribution.nll(samples, param_dict)`: a
per-example negative log-likelihood vector. -/
abbrev Nll := Tensor → List (String × Tensor) → List ℚ

/-- The closure returned by `_build_mi_loss` (infogan.py:349-361): ignore the
targets, slice the predictions by the recorded parameter names and dimensions,
and apply the distribution's `nll` to the originally sampled latents. -/
def mutual_info_loss (nll : Nll) (samples : Tensor)
    (param_names_list : List String) (param_outputs_dims : List Nat)
    (targets preds : Tensor) : List ℚ :=
  nll samples (slice_params (param_names_list.zip param_outputs_dims) 0 preds)

/-- The list-building loop of `_add_enc_outputs_and_losses`
(infogan.py:296-299): parameter names and dimensions in declared
`param_info()` order, as later handed to `_build_mi_loss`. -/
def enc_param_lists (dist : Distribution) : List String × List Nat :=
  (dist.param_info.map Prod.fst, dist.param_info.map Prod.snd)

/-- The closure `wrapped_loss` (infogan.py:330-336): `K.all(K.equal(...))`
reduces over every axis, so the supervised loss is replaced by
`K.zeros((batch_size,))` exactly when every entry of the fed label batch is
zero, and is the plain supervised nll otherwise. -/
def wrapped_loss (batch_size : Nat) (real_labels : Tensor)
    (loss : Tensor → Tensor → List ℚ) (targets preds : Tensor) : List ℚ :=
  if real_labels.all fun row => row.all fun x => decide (x = 0) then
    List.replicate batch_size 0
  else
    loss targets preds

/-- The closure `disc_real_loss` (infogan.py:160-162), elementwise on the
prediction; `log` stands for the backend `K.log` and `eps` for
`K.epsilon()`. The targets argument is ignored by the source. -/
def disc_real_loss (log : ℚ → ℚ) (eps : ℚ) (targets real_preds : ℚ) : ℚ :=
  -(log (real_preds + eps)) / 2

/-- The closure `disc_gen_loss` (infogan.py:164-166), elementwise. -/
def disc_gen_loss (log : ℚ → ℚ) (eps : ℚ) (targets gen_preds : ℚ) : ℚ :=
  -(log (1 - gen_preds + eps)) / 2

/-- The closure `gen_loss` (infogan.py:197-199), elementwise. -/
def gen_loss (log : ℚ → ℚ) (eps : ℚ) (targets preds : ℚ) : ℚ :=
  -(log (preds + eps))

/-- Trainability flags of the weight groups at a point inside `__init__`. The
per-distribution output-head layers (`dist_output_layers`, infogan.py:49-56)
are tracked with one flag per layer. -/
structure TrainFlags where
  gen_net : Bool
  shared_net : Bool
  disc_top : Bool
  encoder_top : Bool
  dist_output_layers : List Bool
deriving DecidableEq

/-- Flag state right after the networks and output-head layers are built
(infogan.py:49-82): Keras creates every layer trainable; `n` is the number of
output-head layers. -/
def init_flags (n : Nat) : TrainFlags :=
  ⟨true, true, true, true, List.replicate n true⟩

/-- The single freeze call `gen_net.freeze()` (infogan.py:156) that runs
between network construction and `disc_train_model.compile`
(infogan.py:179). -/
def freeze_for_disc_compile (s : TrainFlags) : TrainFlags :=
  { s with gen_net := false }

/-- The block at infogan.py:184-195 that runs between
`disc_train_model.compile` and `gen_train_model.compile` (infogan.py:207):
unfreeze the generator, freeze the shared net, the discriminator top, the
encoder top and every per-distribution output-head layer. -/
def freeze_for_gen_compile (s : TrainFlags) : TrainFlags :=
  { s with gen_net := true, shared_net := false, disc_top := false,
           encoder_top := false,
           dist_output_layers := s.dist_output_layers.map fun _ => false }

/-- The flag state at the moment `disc_train_model.compile` runs
(infogan.py:179). -/
def disc_compile_flags (n : Nat) : TrainFlags :=
  freeze_for_disc_compile (init_flags n)

/-- The flag state at the moment `gen_train_model.compile` runs
(infogan.py:207). -/
def gen_compile_flags (n : Nat) : TrainFlags :=
  freeze_for_gen_compile (disc_compile_flags n)

/-- Compile-time facts of a compiled Keras training model that
`train_on_minibatch` reads: `len(model.outputs)` and `model.metrics_names`. -/
structure KerasModel where
  num_outputs : Nat
  metrics_names : List String
deriving DecidableEq

/-- The fields of an `InfoGAN` instance that the training-step methods read
(set in `__init__`, infogan.py:40-46 and 62-65). -/
structure Config where
  batch_size : Nat
  meaningful_dists : List (String × Distribution)
  supervised_dist_name : Option String
  prior_params : PriorBank
  prior_param_names : List String
  prior_param_dist_names : List String
  disc_train_model : KerasModel
  gen_train_model : KerasModel

/-- The array `np.zeros((batch_size, dim))` (infogan.py:405). -/
def zeros (batch_size dim : Nat) : Tensor :=
  List.replicate batch_size (List.replicate dim 0)

/-- The array `np.ones((self.batch_size,), dtype=np.float32)`
(infogan.py:399, 415). -/
def ones_vec (batch_size : Nat) : List ℚ :=
  List.replicate batch_size 1

/-- One `train_on_batch` invocation: which compiled model it hits, the input
list and the target list it is fed. -/
structure TrainCall where
  model : String
  inputs : List Tensor
  targets : List (List ℚ)

/-- The call `_train_disc_pass` makes (infogan.py:398-412): all-ones dummy
targets, one per model output; an all-zero label batch substituted when
`labels_batch is None` and a supervised distribution is configured; the label
batch fed only when a supervised distribution is configured; then the
assembled prior parameters. -/
def train_disc_pass_call (g : Config) (samples_batch : Tensor)
    (labels_batch : Option Tensor) : TrainCall :=
  let dummy_targets :=
    List.replicate g.disc_train_model.num_outputs (ones_vec g.batch_size)
  let labels_batch :=
    if labels_batch.isNone && truthy g.supervised_dist_name then
      some (zeros g.batch_size
        (((g.meaningful_dists.lookup (g.supervised_dist_name.getD "")).getD
          ⟨[], 0⟩).sample_size))
    else labels_batch
  let inputs :=
    if truthy g.supervised_dist_name then [samples_batch, labels_batch.getD []]
    else [samples_batch]
  { model := "disc_train_model",
    inputs := inputs ++ assemble_prior_params g.prior_params
      g.prior_param_dist_names g.prior_param_names,
    targets := dummy_targets }

/-- The call `_train_gen_pass` makes (infogan.py:414-419). -/
def train_gen_pass_call (g : Config) : TrainCall :=
  { model := "gen_train_model",
    inputs := assemble_prior_params g.prior_params
      g.prior_param_dist_names g.prior_param_names,
    targets := List.replicate g.gen_train_model.num_outputs
      (ones_vec g.batch_size) }

/-- The method `train_on_minibatch` (infogan.py:385-396). `tob` is the
framework's `Model.train_on_batch`, returning one loss value per metric name.
The first component is the returned dict, an association list whose single
key `losses` holds the per-output loss log (generator entries prefixed `g_`
first, discriminator entries prefixed `d_` second, as the source inserts
them); the second component is the ordered list of training calls made. -/
def train_on_minibatch (tob : TrainCall → List ℚ) (g : Config)
    (samples : Tensor) (labels : Option Tensor) :
    List (String × List (String × ℚ)) × List TrainCall :=
  let disc_call := train_disc_pass_call g samples labels
  let disc_losses := tob disc_call
  let gen_call := train_gen_pass_call g
  let gen_losses := tob gen_call
  let loss_logs :=
    (gen_losses.zip g.gen_train_model.metrics_names).map
      (fun ln => ("g_" ++ ln.2, ln.1)) ++
    (disc_losses.zip g.disc_train_model.metrics_names).map
      (fun ln => ("d_" ++ ln.2, ln.1))
  ([("losses", loss_logs)], [disc_call, gen_call])

/-- The construction-time supervised-name check (infogan.py:104-106) together
with the model compilations of `__init__` (infogan.py:137-208): when the
Python `assert` fires the exception propagates and nothing is compiled;
otherwise the five models are compiled in source order. The check is guarded
by the truthiness of `supervised_dist_name`. -/
def init_supervised_check (meaningful_names : List String)
    (supervised_dist_name : Option String) : Except String (List String) :=
  if truthy supervised_dist_name &&
      !(meaningful_names.contains (supervised_dist_name.getD "")) then
    Except.error
      "The distribution that is supervised must be one of the meaningful_dists"
  else
    Except.ok ["gen_model", "encoder_model", "disc_model",
               "disc_train_model", "gen_train_model"]

/-!
Helper lemmas about the slicing and concatenation embedding, shared by the
claim theorems below.
-/

lemma concatenate_cons_cons (t u : Tensor) (ts : List Tensor) :
    concatenate (t :: u :: ts) = List.zipWith (· ++ ·) t (concatenate (u :: ts)) :=
  rfl

lemma concatenate_length (vals : List Tensor) (bs : Nat)
    (h : ∀ v ∈ vals, v.length = bs) (hne : vals ≠ []) :
    (concatenate vals).length = bs := by
  induction vals with
  | nil => exact absurd rfl hne
  | cons v vs ih =>
    cases vs with
    | nil => simpa [concatenate] using h v (by simp)
    | cons w ws =>
      rw [concatenate_cons_cons, List.length_zipWith,
        ih (fun x hx => h x (List.mem_cons_of_mem v hx)) (by simp),
        h v (by simp), Nat.min_self]

lemma mem_zipWith_append (v M : List (List ℚ)) (row : List ℚ)
    (h : row ∈ List.zipWith (· ++ ·) v M) :
    ∃ a ∈ v, ∃ b ∈ M, row = a ++ b := by
  induction v generalizing M with
  | nil => simp at h
  | cons a v ih =>
    cases M with
    | nil => simp at h
    | cons b M =>
      rcases List.mem_cons.mp h with h1 | h2
      · exact ⟨a, by simp, b, by simp, h1⟩
      · obtain ⟨a', ha', b', hb', heq⟩ := ih M h2
        exact ⟨a', List.mem_cons_of_mem a ha', b', List.mem_cons_of_mem b hb', heq⟩

lemma map_zipWith_append (f g : List ℚ → List ℚ) (v M : List (List ℚ))
    (hlen : v.length = M.length)
    (hfg : ∀ p ∈ v.zip M, f (p.1 ++ p.2) = g p.2) :
    (List.zipWith (· ++ ·) v M).map f = M.map g := by
  induction v generalizing M with
  | nil => cases M with
    | nil => rfl
    | cons b M => simp at hlen
  | cons a v ih =>
    cases M with
    | nil => simp at hlen
    | cons b M =>
      simp only [List.zipWith_cons_cons, List.map_cons]
      refine congrArg₂ _ (hfg (a, b) (by simp)) ?_
      exact ih M (by simpa using hlen)
        (fun p hp => hfg p (List.mem_cons_of_mem (a, b) hp))

lemma slice_params_shift (ps : List (String × Nat)) (i d : Nat)
    (v M : List (List ℚ)) (hlen : v.length = M.length)
    (hd : ∀ a ∈ v, a.length = d) :
    slice_params ps (d + i) (List.zipWith (· ++ ·) v M) = slice_params ps i M := by
  induction ps generalizing i with
  | nil => rfl
  | cons p ps ih =>
    obtain ⟨n, k⟩ := p
    simp only [slice_params]
    refine congrArg₂ _ (congrArg _ ?_) ?_
    · refine map_zipWith_append _ _ v M hlen fun q hq => ?_
      have ha : q.1.length = d := hd q.1 (List.of_mem_zip hq).1
      rw [← ha, List.drop_append i]
    · rw [Nat.add_assoc]
      exact ih (i + k)

lemma map_zipWith_append_fst (f g : List ℚ → List ℚ) (v M : List (List ℚ))
    (hlen : v.length = M.length)
    (hfg : ∀ p ∈ v.zip M, f (p.1 ++ p.2) = g p.1) :
    (List.zipWith (· ++ ·) v M).map f = v.map g := by
  induction v generalizing M with
  | nil => rfl
  | cons a v ih =>
    cases M with
    | nil => simp at hlen
    | cons b M =>
      simp only [List.zipWith_cons_cons, List.map_cons]
      refine congrArg₂ _ (hfg (a, b) (by simp)) ?_
      exact ih M (by simpa using hlen)
        (fun p hp => hfg p (List.mem_cons_of_mem (a, b) hp))

lemma zipWith_append_take (d : Nat) (v M : List (List ℚ))
    (hlen : v.length = M.length) (hd : ∀ a ∈ v, a.length = d) :
    (List.zipWith (· ++ ·) v M).map (fun row => (row.drop 0).take d) = v := by
  have h := map_zipWith_append_fst (fun row => (row.drop 0).take d) id v M hlen
    (fun p hp => by
      have ha : p.1.length = d := hd p.1 (List.of_mem_zip hp).1
      simp [List.drop_zero, ← ha, List.take_left])
  simpa using h

lemma take_of_row_length (d : Nat) (v : Tensor) (hd : ∀ a ∈ v, a.length = d) :
    v.map (fun row => (row.drop 0).take d) = v := by
  have : ∀ a ∈ v, (fun row => (List.take d (List.drop 0 row))) a = id a := by
    intro a ha
    simp [List.drop_zero, ← hd a ha, List.take_length]
  simpa using List.map_congr_left this

lemma slice_params_concatenate (ps : List (String × Nat)) (vals : List Tensor)
    (bs : Nat) (hlen : vals.length = ps.length)
    (hbs : ∀ v ∈ vals, v.length = bs)
    (hdim : ∀ pv ∈ ps.zip vals, ∀ row ∈ pv.2, row.length = pv.1.2) :
    slice_params ps 0 (concatenate vals) = (ps.map Prod.fst).zip vals := by
  induction ps generalizing vals with
  | nil =>
    have : vals = [] := List.length_eq_zero.mp (by simpa using hlen)
    subst this
    rfl
  | cons p ps ih =>
    obtain ⟨n, d⟩ := p
    cases vals with
    | nil => simp at hlen
    | cons v vs =>
      have hvd : ∀ row ∈ v, row.length = d := fun row hr =>
        hdim ((n, d), v) (by simp [List.zip_cons_cons]) row hr
      cases vs with
      | nil =>
        have hps : ps = [] := List.length_eq_zero.mp (by simpa using hlen.symm)
        subst hps
        simp only [concatenate, slice_params, List.map_cons, List.map_nil,
          List.zip_cons_cons, List.zip_nil_right]
        exact congrArg (fun t => [(n, t)]) (take_of_row_length d v hvd)
      | cons w ws =>
        have hC : (concatenate (w :: ws)).length = bs :=
          concatenate_length (w :: ws) bs
            (fun x hx => hbs x (List.mem_cons_of_mem v hx)) (by simp)
        have hvlen : v.length = (concatenate (w :: ws)).length := by
          rw [hC]; exact hbs v (by simp)
        rw [concatenate_cons_cons]
        simp only [slice_params, List.map_cons, List.zip_cons_cons]
        refine congrArg₂ _ (congrArg _ ?_) ?_
        · exact zipWith_append_take d v _ hvlen hvd
        · rw [Nat.zero_add, show d = d + 0 from rfl, slice_params_shift ps 0 d v _ hvlen hvd]
          exact ih (w :: ws) (by simpa using hlen)
            (fun x hx => hbs x (List.mem_cons_of_mem v hx))
            (fun pv hpv => hdim pv (List.mem_cons_of_mem ((n, d), v) hpv))

lemma concatenate_row_length (dims : List Nat) (vals : List Tensor)
    (hlen : vals.length = dims.length)
    (hdim : ∀ dv ∈ dims.zip vals, ∀ row ∈ dv.2, row.length = dv.1) :
    ∀ row ∈ concatenate vals, row.length = dims.sum := by
  induction dims generalizing vals with
  | nil =>
    have : vals = [] := List.length_eq_zero.mp (by simpa using hlen)
    subst this
    intro row hr
    simp [concatenate] at hr
  | cons d dims ih =>
    cases vals with
    | nil => simp at hlen
    | cons v vs =>
      have hvd : ∀ row ∈ v, row.length = d := fun row hr =>
        hdim (d, v) (by simp [List.zip_cons_cons]) row hr
      cases vs with
      | nil =>
        have hds : dims = [] := List.length_eq_zero.mp (by simpa using hlen.symm)
        subst hds
        intro row hr
        simp only [concatenate] at hr
        simp [hvd row hr]
      | cons w ws =>
        intro row hr
        rw [concatenate_cons_cons] at hr
        obtain ⟨a, ha, b, hb, heq⟩ := mem_zipWith_append v _ row hr
        have hblen : b.length = dims.sum :=
          ih (w :: ws) (by simpa using hlen)
            (fun dv hdv => hdim dv (List.mem_cons_of_mem (d, v) hdv)) b hb
        simp [heq, hvd a ha, hblen]

lemma zip_replicate_map (a : String) (l : List String) :
    (List.replicate l.length a).zip l = l.map fun x => (a, x) := by
  induction l with
  | nil => rfl
  | cons x l ih => simp [List.replicate_succ, List.zip_cons_cons, ih]

lemma assemble_eq_placeholder_map (bank : PriorBank) (ds : List (String × Distribution)) :
    assemble_prior_params bank (sample_latent_inputs_aux ds).2.2
      (sample_latent_inputs_aux ds).2.1 =
    (sample_latent_inputs_aux ds).1.map fun ph => bank ph.dist_name ph.param_name := by
  induction ds with
  | nil => rfl
  | cons nd ds ih =>
    obtain ⟨name, dist⟩ := nd
    simp only [sample_latent_inputs_aux, sample_latent_input, assemble_prior_params]
    rw [List.zip_append (by simp)]
    simp only [List.map_append]
    refine congrArg₂ (· ++ ·) ?_ ?_
    · rw [show (dist.param_info.map Prod.fst).length = dist.param_info.length by simp]
      rw [show (List.replicate dist.param_info.length name) =
        (List.replicate (dist.param_info.map Prod.fst).length name) by simp]
      rw [zip_replicate_map name (dist.param_info.map Prod.fst)]
      simp [List.map_map, Function.comp]
    · exact ih

lemma wrapped_loss_all_zero (bs : Nat) (labels : Tensor)
    (loss : Tensor → Tensor → List ℚ) (targets preds : Tensor)
    (h : ∀ row ∈ labels, ∀ x ∈ row, x = (0 : ℚ)) :
    wrapped_loss bs labels loss targets preds = List.replicate bs 0 := by
  have hc : (labels.all fun row => row.all fun x => decide (x = (0 : ℚ))) = true := by
    simp only [List.all_eq_true, decide_eq_true_eq]
    exact h
  simp [wrapped_loss, hc]

lemma enc_param_lists_zip (dist : Distribution) :
    (enc_param_lists dist).1.zip (enc_param_lists dist).2 = dist.param_info := by
  simp [enc_param_lists, List.zip_map']

lemma zip_self_map (l : List (String × Nat)) (g : (String × Nat) → Tensor) :
    l.zip (l.map g) = l.map fun p => (p, g p) := by
  induction l with
  | nil => rfl
  | cons p l ih => simp [List.zip_cons_cons, ih]

lemma map_key_of_zip (pre : String) (ls : List ℚ) (names : List String)
    (h : names.length ≤ ls.length) :
    ((ls.zip names).map fun ln => (pre ++ ln.2, ln.1)).map Prod.fst =
      names.map fun s => pre ++ s := by
  rw [List.map_map]
  have h2 : (Prod.fst ∘ fun ln : ℚ × String => (pre ++ ln.2, ln.1)) =
      (fun s => pre ++ s) ∘ Prod.snd := rfl
  rw [h2, ← List.map_map, List.map_snd_zip ls names h]

/-!
The claims.
-/

/-- C1: Weight-group freeze ownership. When `disc_train_model` is compiled the
generator is frozen while the shared trunk, discriminator head, encoder head
and every per-distribution output-head layer are trainable; when
`gen_train_model` is compiled the generator is trainable and all the other
groups are frozen; hence each weight group is trainable at exactly one of the
two training-graph compilations. The last two conjuncts state the
re-assertion: the operations run immediately before each compilation force
the flags that compilation freezes, whatever flag state they start from. -/
theorem freeze_ownership_at_compiles (n : Nat) :
    ((disc_compile_flags n).gen_net = false ∧
     (disc_compile_flags n).shared_net = true ∧
     (disc_compile_flags n).disc_top = true ∧
     (disc_compile_flags n).encoder_top = true ∧
     (∀ b ∈ (disc_compile_flags n).dist_output_layers, b = true)) ∧
    ((gen_compile_flags n).gen_net = true ∧
     (gen_compile_flags n).shared_net = false ∧
     (gen_compile_flags n).disc_top = false ∧
     (gen_compile_flags n).encoder_top = false ∧
     (∀ b ∈ (gen_compile_flags n).dist_output_layers, b = false)) ∧
    ((disc_compile_flags n).gen_net ≠ (gen_compile_flags n).gen_net ∧
     (disc_compile_flags n).shared_net ≠ (gen_compile_flags n).shared_net ∧
     (disc_compile_flags n).disc_top ≠ (gen_compile_flags n).disc_top ∧
     (disc_compile_flags n).encoder_top ≠ (gen_compile_flags n).encoder_top ∧
     (disc_compile_flags n).dist_output_layers.length =
       (gen_compile_flags n).dist_output_layers.length) ∧
    (∀ s : TrainFlags, (freeze_for_disc_compile s).gen_net = false) ∧
    (∀ s : TrainFlags, (freeze_for_gen_compile s).gen_net = true ∧
      (freeze_for_gen_compile s).shared_net = false ∧
      (freeze_for_gen_compile s).disc_top = false ∧
      (freeze_for_gen_compile s).encoder_top = false ∧
      ∀ b ∈ (freeze_for_gen_compile s).dist_output_layers, b = false) := by
  have h1 : disc_compile_flags n = ⟨false, true, true, true, List.replicate n true⟩ := rfl
  have h2 : gen_compile_flags n = ⟨true, false, false, false, List.replicate n false⟩ := by
    show freeze_for_gen_compile (disc_compile_flags n) = _
    rw [h1]
    simp [freeze_for_gen_compile, List.map_replicate]
  rw [h1, h2]
  refine ⟨⟨rfl, rfl, rfl, rfl, fun b hb => List.eq_of_mem_replicate hb⟩,
          ⟨rfl, rfl, rfl, rfl, fun b hb => List.eq_of_mem_replicate hb⟩,
          ⟨by simp, by simp, by simp, by simp, by simp⟩,
          fun s => rfl,
          fun s => ⟨rfl, rfl, rfl, rfl, fun b hb => ?_⟩⟩
  simp only [freeze_for_gen_compile, List.mem_map] at hb
  obtain ⟨a, -, h⟩ := hb
  exact h.symm

/-- C2: For every meaningful distribution, the mutual-information loss built
by `_build_mi_loss` from the declared parameter names and dimensions ignores
the framework-supplied targets; it equals the distribution's nll of the
originally sampled latent values under the sliced predicted parameters; and
on a merged prediction obtained by concatenating per-parameter tensors of the
declared dimensions, the slicing recovers exactly the named per-parameter
tensors. -/
theorem mutual_info_loss_spec (nll : Nll) (samples : Tensor)
    (dist : Distribution) (vals : List Tensor) (bs : Nat)
    (hlen : vals.length = dist.param_info.length)
    (hbs : ∀ v ∈ vals, v.length = bs)
    (hdim : ∀ pv ∈ dist.param_info.zip vals, ∀ row ∈ pv.2, row.length = pv.1.2) :
    (∀ targets targets' preds,
      mutual_info_loss nll samples (enc_param_lists dist).1
          (enc_param_lists dist).2 targets preds =
        mutual_info_loss nll samples (enc_param_lists dist).1
          (enc_param_lists dist).2 targets' preds) ∧
    (∀ targets preds,
      mutual_info_loss nll samples (enc_param_lists dist).1
          (enc_param_lists dist).2 targets preds =
        nll samples (slice_params dist.param_info 0 preds)) ∧
    (∀ targets,
      mutual_info_loss nll samples (enc_param_lists dist).1
          (enc_param_lists dist).2 targets (concatenate vals) =
        nll samples ((dist.param_info.map Prod.fst).zip vals)) := by
  have hkey : ∀ targets preds,
      mutual_info_loss nll samples (enc_param_lists dist).1
          (enc_param_lists dist).2 targets preds =
        nll samples (slice_params dist.param_info 0 preds) := by
    intro targets preds
    unfold mutual_info_loss
    rw [enc_param_lists_zip]
  refine ⟨fun targets targets' preds => (hkey targets preds).trans
      (hkey targets' preds).symm,
    hkey, fun targets => ?_⟩
  rw [hkey, slice_params_concatenate dist.param_info vals bs hlen hbs hdim]

/-- C3: the discriminator-real loss is -log(p + eps)/2, the
discriminator-generated loss is -log(1 - p + eps)/2 and the generator
adversarial loss is -log(p + eps), for every prediction p, and none of the
three depends on the targets argument. -/
theorem adversarial_loss_formulas :
    ∀ (log : ℚ → ℚ) (eps targets targets' p : ℚ),
      disc_real_loss log eps targets p = -(log (p + eps)) / 2 ∧
      disc_gen_loss log eps targets p = -(log (1 - p + eps)) / 2 ∧
      gen_loss log eps targets p = -(log (p + eps)) ∧
      disc_real_loss log eps targets p = disc_real_loss log eps targets' p ∧
      disc_gen_loss log eps targets p = disc_gen_loss log eps targets' p ∧
      gen_loss log eps targets p = gen_loss log eps targets' p := by
  intro log eps targets targets' p
  exact ⟨rfl, rfl, rfl, rfl, rfl, rfl⟩

/-- C4: (order) the numeric values `_assemble_prior_params` produces are, in
position, exactly the bank entries of the placeholders in their generation
order; (width) each distribution's concatenated parameter tensor has rows of
width equal to the sum of its declared per-parameter dimensions; (round trip)
feeding each distribution's bank values into its placeholders and slicing as
`sampling_fn` does hands the distribution's `sample` exactly the original
named per-parameter values. -/
theorem latent_param_roundtrip
    (noise_dists meaningful_dists : List (String × Distribution))
    (bank : PriorBank) (bs : Nat)
    (hbank : ∀ nd ∈ noise_dists ++ meaningful_dists, ∀ p ∈ nd.2.param_info,
      (bank nd.1 p.1).length = bs ∧ ∀ row ∈ bank nd.1 p.1, row.length = p.2) :
    assemble_prior_params bank
        (sample_latent_inputs noise_dists meaningful_dists).2.2
        (sample_latent_inputs noise_dists meaningful_dists).2.1 =
      (sample_latent_inputs noise_dists meaningful_dists).1.map
        (fun ph => bank ph.dist_name ph.param_name) ∧
    (∀ nd ∈ noise_dists ++ meaningful_dists,
      ∀ row ∈ concatenate (nd.2.param_info.map fun p => bank nd.1 p.1),
        row.length = (nd.2.param_info.map Prod.snd).sum) ∧
    (∀ nd ∈ noise_dists ++ meaningful_dists,
      ∀ sample : List (String × Tensor) → Tensor,
        sampling_fn nd.2 sample
            (concatenate (nd.2.param_info.map fun p => bank nd.1 p.1)) =
          sample ((nd.2.param_info.map Prod.fst).zip
            (nd.2.param_info.map fun p => bank nd.1 p.1))) := by
  refine ⟨assemble_eq_placeholder_map bank _, ?_, ?_⟩
  · intro nd hnd row hrow
    refine concatenate_row_length (nd.2.param_info.map Prod.snd) _
      (by simp) ?_ row hrow
    intro dv hdv
    rw [List.zip_map'] at hdv
    obtain ⟨p, hp, hdveq⟩ := List.mem_map.mp hdv
    intro r hr
    rw [← hdveq] at hr ⊢
    exact (hbank nd hnd p hp).2 r hr
  · intro nd hnd sample
    unfold sampling_fn
    refine congrArg sample ?_
    refine slice_params_concatenate nd.2.param_info _ bs (by simp) ?_ ?_
    · intro v hv
      obtain ⟨p, hp, hveq⟩ := List.mem_map.mp hv
      rw [← hveq]
      exact (hbank nd hnd p hp).1
    · intro pv hpv
      rw [zip_self_map] at hpv
      obtain ⟨p, hp, hpveq⟩ := List.mem_map.mp hpv
      intro r hr
      rw [← hpveq] at hr ⊢
      exact (hbank nd hnd p hp).2 r hr

/-- A concrete configuration for the C4 witness: one Gaussian noise code with
mean and std, one categorical meaningful code, batch size two. -/
def bank0 : PriorBank := fun d p =>
  if d = "z" then
    (if p = "mean" then [[0], [0]] else [[1], [1]])
  else [[1/2, 1/2], [1/2, 1/2]]

/-- Witness for C4: the assembled feed values at the concrete configuration
match the placeholder order. -/
theorem latent_param_roundtrip_witness :
    assemble_prior_params bank0
        (sample_latent_inputs [("z", ⟨[("mean", 1), ("std", 1)], 1⟩)]
          [("c1", ⟨[("p_vals", 2)], 2⟩)]).2.2
        (sample_latent_inputs [("z", ⟨[("mean", 1), ("std", 1)], 1⟩)]
          [("c1", ⟨[("p_vals", 2)], 2⟩)]).2.1 =
      (sample_latent_inputs [("z", ⟨[("mean", 1), ("std", 1)], 1⟩)]
          [("c1", ⟨[("p_vals", 2)], 2⟩)]).1.map
        (fun ph => bank0 ph.dist_name ph.param_name) :=
  (latent_param_roundtrip [("z", ⟨[("mean", 1), ("std", 1)], 1⟩)]
    [("c1", ⟨[("p_vals", 2)], 2⟩)] bank0 2 (by decide)).1

/-- Witness for C2: the mutual-information loss at a concrete two-parameter
distribution, evaluated on the concatenation of the two per-parameter
tensors, recovers them by name for the nll. -/
theorem mutual_info_loss_spec_witness :
    mutual_info_loss (fun s pd => s.map fun _ => (pd.length : ℚ)) [[0], [0]]
        (enc_param_lists ⟨[("mean", 1), ("std", 1)], 1⟩).1
        (enc_param_lists ⟨[("mean", 1), ("std", 1)], 1⟩).2
        [[9], [9]] (concatenate [[[2], [4]], [[5], [6]]]) =
      (fun s pd => s.map fun _ => (pd.length : ℚ)) [[0], [0]]
        ((([("mean", 1), ("std", 1)] : List (String × Nat)).map Prod.fst).zip
          [[[2], [4]], [[5], [6]]]) :=
  (mutual_info_loss_spec (fun s pd => s.map fun _ => (pd.length : ℚ)) [[0], [0]]
    ⟨[("mean", 1), ("std", 1)], 1⟩ [[[2], [4]], [[5], [6]]] 2
    (by decide) (by decide) (by decide)).2.2 [[9], [9]]

/-- C5: one call of `train_on_minibatch` performs exactly the
discriminator-training step followed by the generator-training step, in that
order, and each step's targets are all-ones vectors of length batch_size,
one per output of the respective training model. -/
theorem train_on_minibatch_order_and_targets (tob : TrainCall → List ℚ)
    (g : Config) (samples : Tensor) (labels : Option Tensor) :
    (train_on_minibatch tob g samples labels).2 =
      [train_disc_pass_call g samples labels, train_gen_pass_call g] ∧
    (train_disc_pass_call g samples labels).model = "disc_train_model" ∧
    (train_gen_pass_call g).model = "gen_train_model" ∧
    (train_disc_pass_call g samples labels).targets =
      List.replicate g.disc_train_model.num_outputs
        (List.replicate g.batch_size 1) ∧
    (train_gen_pass_call g).targets =
      List.replicate g.gen_train_model.num_outputs
        (List.replicate g.batch_size 1) :=
  ⟨rfl, rfl, rfl, rfl, rfl⟩

/-- C6: with an all-zero label batch the supervised loss is exactly the zero
vector, regardless of the inner loss, the targets and the predictions. -/
theorem supervised_loss_zero_on_all_zero_batch (bs : Nat) (labels : Tensor)
    (loss : Tensor → Tensor → List ℚ) (targets preds : Tensor)
    (h : ∀ row ∈ labels, ∀ x ∈ row, x = (0 : ℚ)) :
    wrapped_loss bs labels loss targets preds = List.replicate bs 0 :=
  wrapped_loss_all_zero bs labels loss targets preds h

/-- Witness for C6 at a concrete all-zero two-row label batch and a non-zero
inner loss. -/
theorem supervised_loss_zero_witness :
    wrapped_loss 2 [[0, 0], [0, 0]] (fun _ _ => [5, 7]) [] [[1], [1]] = [0, 0] := by
  have h := supervised_loss_zero_on_all_zero_batch 2 [[0, 0], [0, 0]]
    (fun _ _ => [5, 7]) [] [[1], [1]] (by decide)
  simpa using h

/-- A fixed-unit-variance Gaussian negative log-likelihood (up to its additive
constant), one concrete instance of the external `Distribution.nll`
collaborator, used to exhibit the supervised-loss behaviour. -/
def gauss_nll : Nll := fun samples param_dict =>
  let means := (param_dict.lookup "mean").getD []
  (samples.zip means).map fun sm =>
    (((sm.1.zip sm.2).map fun xy => (xy.1 - xy.2) * (xy.1 - xy.2)).sum) / 2

/-- Counterexample to C7: labels [[0], [3]] (first row all-zero, second row
labelled), Gaussian supervised nll, predicted means [[1], [1]]: the first
row's supervised-loss contribution is 1/2, not zero, because the zeroing
switch looks at the whole batch at once. -/
theorem wrapped_loss_per_row_cex :
    (wrapped_loss 2 [[0], [3]]
        (mutual_info_loss gauss_nll [[0], [3]] ["mean"] [1]) []
        [[1], [1]]).headD 0 = 1 / 2 ∧
    ((1 : ℚ) / 2 ≠ 0) := by
  constructor
  · norm_num [wrapped_loss, mutual_info_loss, gauss_nll, slice_params]
  · norm_num

/-- C7 amended: the missing-label treatment is batch-global, not per-row:
whenever any entry of the fed label batch is non-zero, `wrapped_loss` returns
the full supervised loss vector and zeroes no row, all-zero rows included;
only an entirely-zero label batch is replaced by the zero vector. -/
theorem wrapped_loss_batch_global (bs : Nat) (labels : Tensor)
    (loss : Tensor → Tensor → List ℚ) (targets preds : Tensor)
    (h : ∃ row ∈ labels, ∃ x ∈ row, x ≠ (0 : ℚ)) :
    wrapped_loss bs labels loss targets preds = loss targets preds := by
  have hc : (labels.all fun row => row.all fun x => decide (x = (0 : ℚ))) = false := by
    refine Bool.eq_false_iff.mpr fun hall => ?_
    obtain ⟨row, hr, x, hx, hne⟩ := h
    rw [List.all_eq_true] at hall
    have hrow := hall row hr
    rw [List.all_eq_true] at hrow
    exact hne (decide_eq_true_eq.mp (hrow x hx))
  simp [wrapped_loss, hc]

/-- Witness for the amended C7: a batch with one labelled row keeps the inner
loss untouched. -/
theorem wrapped_loss_batch_global_witness :
    wrapped_loss 2 [[0], [3]] (fun _ _ => [9, 9]) [] [] = [9, 9] :=
  wrapped_loss_batch_global 2 [[0], [3]] (fun _ _ => [9, 9]) [] []
    ⟨[3], by norm_num, 3, by norm_num, by norm_num⟩

/-- A concrete framework `train_on_batch` stub for the C8 theorems: two loss
values, matching the two metric names of each training model below. -/
def tob0 : TrainCall → List ℚ := fun _ => [0, 0]

/-- A concrete `InfoGAN` configuration for the C8 theorems. -/
def g0 : Config :=
  { batch_size := 2,
    meaningful_dists := [("c1", ⟨[("p_vals", 3)], 3⟩)],
    supervised_dist_name := none,
    prior_params := fun _ _ => [[1], [1]],
    prior_param_names := ["p_vals"],
    prior_param_dist_names := ["c1"],
    disc_train_model := ⟨2, ["loss", "d_out_loss"]⟩,
    gen_train_model := ⟨2, ["loss", "g_out_loss"]⟩ }

/-- Counterexample to C8: at a concrete configuration the mapping returned by
`train_on_minibatch` has the single key `losses`, which is not one of the
prefixed per-output loss names the claim says the keys are. -/
theorem train_on_minibatch_keys_cex :
    ((train_on_minibatch tob0 g0 [] none).1.map Prod.fst = ["losses"]) ∧
    "losses" ∉
      (g0.gen_train_model.metrics_names.map (fun s => "g_" ++ s) ++
       g0.disc_train_model.metrics_names.map (fun s => "d_" ++ s)) := by
  constructor
  · rfl
  · decide

/-- C8 amended: `train_on_minibatch` returns a mapping with the single key
`losses`; the mapping stored under that key has as its keys exactly the
generator-training model's per-output loss names prefixed `g_` followed by
the discriminator-training model's prefixed `d_`, each key paired with the
loss value the framework returned for that output. -/
theorem train_on_minibatch_losses_mapping (tob : TrainCall → List ℚ)
    (g : Config) (samples : Tensor) (labels : Option Tensor)
    (hg : (tob (train_gen_pass_call g)).length =
      g.gen_train_model.metrics_names.length)
    (hd : (tob (train_disc_pass_call g samples labels)).length =
      g.disc_train_model.metrics_names.length) :
    ((train_on_minibatch tob g samples labels).1.map Prod.fst = ["losses"]) ∧
    ((train_on_minibatch tob g samples labels).1 =
      [("losses",
        ((tob (train_gen_pass_call g)).zip
          g.gen_train_model.metrics_names).map
            (fun ln => ("g_" ++ ln.2, ln.1)) ++
        ((tob (train_disc_pass_call g samples labels)).zip
          g.disc_train_model.metrics_names).map
            (fun ln => ("d_" ++ ln.2, ln.1)))]) ∧
    ((((train_on_minibatch tob g samples labels).1.lookup "losses").getD
        []).map Prod.fst =
      g.gen_train_model.metrics_names.map (fun s => "g_" ++ s) ++
      g.disc_train_model.metrics_names.map (fun s => "d_" ++ s)) := by
  refine ⟨rfl, rfl, ?_⟩
  show ((((tob (train_gen_pass_call g)).zip
      g.gen_train_model.metrics_names).map (fun ln => ("g_" ++ ln.2, ln.1)) ++
    ((tob (train_disc_pass_call g samples labels)).zip
      g.disc_train_model.metrics_names).map
        (fun ln => ("d_" ++ ln.2, ln.1))).map Prod.fst) = _
  rw [List.map_append, map_key_of_zip "g_" _ _ (le_of_eq hg.symm),
    map_key_of_zip "d_" _ _ (le_of_eq hd.symm)]

/-- Witness for the amended C8 at the concrete configuration. -/
theorem train_on_minibatch_losses_mapping_witness :
    (((train_on_minibatch tob0 g0 [] none).1.lookup "losses").getD
        []).map Prod.fst =
      g0.gen_train_model.metrics_names.map (fun s => "g_" ++ s) ++
      g0.disc_train_model.metrics_names.map (fun s => "d_" ++ s) :=
  (train_on_minibatch_losses_mapping tob0 g0 [] none (by decide)
    (by decide)).2.2

/-- Counterexample to C9: the empty string is not `None` and not a key of the
meaningful distributions, yet construction does not raise: the Python
truthiness guard before the assert skips it. -/
theorem supervised_name_check_cex :
    init_supervised_check ["c1"] (some "") =
      Except.ok ["gen_model", "encoder_model", "disc_model",
                 "disc_train_model", "gen_train_model"] ∧
    some "" ≠ (none : Option String) ∧
    (["c1"].contains "") = false :=
  ⟨rfl, by simp, rfl⟩

/-- C9 amended: construction raises — with nothing compiled — exactly when
`supervised_dist_name` is a truthy (non-empty) string that is not a key of
`meaningful_dists`; with `None`, with the falsy empty string, or with a valid
key, construction does not raise on this precondition. The failing check
happens before any model compilation: the error branch carries no compile. -/
theorem supervised_name_check (names : List String) (s : String)
    (hne : s ≠ "") (hnot : s ∉ names) :
    init_supervised_check names (some s) =
      Except.error
        "The distribution that is supervised must be one of the meaningful_dists" ∧
    init_supervised_check names none =
      Except.ok ["gen_model", "encoder_model", "disc_model",
                 "disc_train_model", "gen_train_model"] ∧
    (∀ t ∈ names, init_supervised_check names (some t) =
      Except.ok ["gen_model", "encoder_model", "disc_model",
                 "disc_train_model", "gen_train_model"]) := by
  refine ⟨?_, rfl, ?_⟩
  · simp [init_supervised_check, truthy, hne, hnot]
  · intro t ht
    simp [init_supervised_check, ht]

/-- Witness for the amended C9: a truthy non-key raises. -/
theorem supervised_name_check_witness :
    init_supervised_check ["c1"] (some "c2") =
      Except.error
        "The distribution that is supervised must be one of the meaningful_dists" :=
  (supervised_name_check ["c1"] "c2" (by decide) (by decide)).1

/-- C10: with a supervised distribution configured, a discriminator pass with
`labels=None` feeds an all-zero label batch of shape
(batch_size, sample_size) in the label slot, and the supervised
`wrapped_loss` on such an all-zero batch is exactly the zero vector whatever
the inner loss, targets and predictions. -/
theorem labels_none_zero_substitution (g : Config) (samples : Tensor)
    (d : Distribution)
    (hs : truthy g.supervised_dist_name = true)
    (hd : g.meaningful_dists.lookup (g.supervised_dist_name.getD "") = some d) :
    (train_disc_pass_call g samples none).inputs =
      [samples, zeros g.batch_size d.sample_size] ++
        assemble_prior_params g.prior_params g.prior_param_dist_names
          g.prior_param_names ∧
    (∀ loss targets preds,
      wrapped_loss g.batch_size (zeros g.batch_size d.sample_size) loss
        targets preds = List.replicate g.batch_size 0) := by
  constructor
  · simp [train_disc_pass_call, hs, hd]
  · intro loss targets preds
    refine wrapped_loss_all_zero _ _ loss targets preds ?_
    intro row hr x hx
    have hrow : row = List.replicate d.sample_size 0 :=
      List.eq_of_mem_replicate hr
    rw [hrow] at hx
    exact List.eq_of_mem_replicate hx

/-- A concrete supervised `InfoGAN` configuration for the C10 witness. -/
def g1 : Config :=
  { batch_size := 2,
    meaningful_dists := [("c1", ⟨[("p_vals", 3)], 3⟩)],
    supervised_dist_name := some "c1",
    prior_params := fun _ _ => [[1], [1]],
    prior_param_names := ["p_vals"],
    prior_param_dist_names := ["c1"],
    disc_train_model := ⟨4, ["loss"]⟩,
    gen_train_model := ⟨2, ["loss"]⟩ }

/-- Witness for C10: at the concrete supervised configuration, the label slot
of the discriminator pass with `labels=None` is the 2-by-3 zero batch. -/
theorem labels_none_zero_substitution_witness :
    (train_disc_pass_call g1 [[9], [9]] none).inputs =
      [[[9], [9]], zeros g1.batch_size (3 : Nat)] ++
        assemble_prior_params g1.prior_params g1.prior_param_dist_names
          g1.prior_param_names :=
  (labels_none_zero_substitution g1 [[9], [9]] ⟨[("p_vals", 3)], 3⟩
    (by decide) (by decide)).1
